import Mathlib

/-!
Verification of the OpenList recursive directory-listing downloader
(`openlist.py`) against its specification.  The Python source is shallowly
embedded: the pure helpers become Lean functions, the stateful crawl and
download phases become explicit state passing, and the external
collaborators (the HTTP layer, the BeautifulSoup HTML parser,
`urllib.parse.urljoin` and `html.unescape`) are modelled as function
parameters / oracles.  Ghost counters (`fetches`, `fetch_calls`) count the
network GET requests the corresponding code paths issue.
-/

namespace OpenList

/-- Does `pat` occur as a contiguous run inside the list? -/
def containsSub (pat : List Char) : List Char → Bool
  | [] => pat.isEmpty
  | c :: rest => pat.isPrefixOf (c :: rest) || containsSub pat rest

/-- Python substring test `sub in s` (`str.__contains__`). -/
def strContains (s sub : String) : Bool :=
  containsSub sub.toList s.toList

/-- Python `s.startswith(pat)`. -/
def strStarts (s pat : String) : Bool :=
  pat.toList.isPrefixOf s.toList

/-- Python `s.endswith('/')`. -/
def endsSlash (s : String) : Bool :=
  match s.toList.reverse with
  | [] => false
  | c :: _ => c == '/'

/-- ASCII lower-casing of one character.  (`str.lower` is full Unicode in
Python; ASCII is all the listing-fingerprint and extension checks need.) -/
def lcChar (c : Char) : Char :=
  if 'A' ≤ c ∧ c ≤ 'Z' then Char.ofNat (c.toNat + 32) else c

/-- Python `s.lower()` (ASCII fragment). -/
def strLower (s : String) : String :=
  ⟨s.toList.map lcChar⟩

/-- Python `s.rstrip('/')`: drop all trailing slashes. -/
def rstripSlash (s : String) : String :=
  ⟨(s.toList.reverse.dropWhile (fun c => c == '/')).reverse⟩

/-- Python `name.split('/')[-1]`: the characters after the last `'/'`
(the whole string when no slash occurs). -/
def afterLastSlash (cs : List Char) : List Char :=
  (cs.reverse.takeWhile (fun c => c != '/')).reverse

/-- Python `s.split('/')`, keeping empty segments, as `list.split` does. -/
def splitSlash : List Char → List (List Char)
  | [] => [[]]
  | c :: rest =>
    let r := splitSlash rest
    if c == '/' then [] :: r
    else
      match r with
      | [] => [[c]]
      | h :: t => (c :: h) :: t

/-- `pathlib.Path(path).name`: the last path component, with empty and `.`
segments dropped (as `pathlib` normalizes them away). -/
def pyName (path : String) : List Char :=
  let segs := (splitSlash path.toList).filter (fun seg => seg != ([] : List Char) && seg != ['.'])
  (segs.getLast?).getD []

/-- `pathlib.Path(name).suffix.lstrip('.')` on a bare component `name`:
the characters after the last dot, empty when the component has no dot,
when the only dot is leading, or when the dot is the final character
(`pathlib` requires `0 < i < len(name) - 1` for the dot position `i`). -/
def pyExtOfName (name : List Char) : List Char :=
  let tail := name.reverse.takeWhile (fun c => c != '.')
  if tail.length == 0 || name.length - 1 ≤ tail.length then []
  else tail.reverse

/-- `Path(path).suffix.lower().lstrip('.')` as used by `is_safe_path`. -/
def pyExtLower (path : String) : String :=
  ⟨(pyExtOfName (pyName path)).map lcChar⟩

/-- `OpenListDownloader.is_safe_path` (openlist.py lines 146-159).
`allowed_extensions = []` models both a missing `allowed_extensions`
attribute and an empty (falsy) list: no extension filtering. -/
def is_safe_path (base_url : String) (allowed_extensions : List String) (path : String) : Bool :=
  if strContains path ".." || (strStarts path "/" && !(strStarts path base_url)) then
    false
  else if !allowed_extensions.isEmpty then
    allowed_extensions.contains (pyExtLower path)
  else
    true

/-- The tags appended from the `Server` header checks of
`detect_server_type` (the `elif` chain, lines 169-178). -/
def headerTags (sh : String) : List String :=
  if strContains sh "apache" then ["apache"]
  else if strContains sh "nginx" then ["nginx"]
  else if strContains sh "iis" || strContains sh "microsoft" then ["iis"]
  else if strContains sh "lighttpd" then ["lighttpd"]
  else if strContains sh "python" then ["python"]
  else []

/-- The tags appended from the content-pattern checks of
`detect_server_type` (the `elif` chain, lines 181-190). -/
def contentTags (c : String) : List String :=
  if strContains c "index of" && strContains c "apache" then ["apache"]
  else if strContains c "directory listing for" then ["python"]
  else if strContains c "<h1>index of" then ["nginx"]
  else if strContains c "autoindex" then ["nginx"]
  else if strContains c "<title>[to parent directory]</title>" then ["iis"]
  else []

/-- Duplicate removal keeping first occurrences, structurally recursive
with an accumulator of already-seen tags. -/
def dedupAux : List String → List String → List String
  | [], _ => []
  | a :: l, seen =>
    if a ∈ seen then dedupAux l seen else a :: dedupAux l (a :: seen)

/-- Model of Python `list(set(l))`: duplicates removed.  Python's set
iteration order is unspecified; we fix first-occurrence order, which the
theorems do not rely on. -/
def dedupFirst (l : List String) : List String := dedupAux l []

/-- `OpenListDownloader.detect_server_type` (openlist.py lines 161-192):
lower-case the `Server` header and the page content, run the header
`elif` chain, then the content `elif` chain, and return
`list(set(server_types)) if server_types else ['unknown']`. -/
def detect_server_type (server_header content : String) : List String :=
  let types := headerTags (strLower server_header) ++ contentTags (strLower content)
  if types = [] then ["unknown"] else dedupFirst types

/-- An `Entry` as produced by `_create_item` (the spec's data model). -/
structure Item where
  url : String
  name : String
  is_directory : Bool
  href : String
deriving DecidableEq

/-- `OpenListDownloader._create_item` (openlist.py lines 327-343).
`unescape` models `html.unescape` and `urljoin` models
`urllib.parse.urljoin`, both external stdlib collaborators. -/
def create_item (unescape : String → String) (urljoin : String → String → String)
    (base_url href name : String) : Item :=
  let h := unescape href
  let full_url := urljoin base_url h
  { url := full_url
    name := rstripSlash name
    is_directory := endsSlash h || (endsSlash name && !((afterLastSlash name.toList).contains '.'))
    href := h }

/-- Model of `urllib.parse.urlparse(url).path` for the URL shapes the
crawler produces: after a `"://"` the authority runs to the first of
`/`, `?`, `#`; the path then runs to the first of `?`, `#`.  Without a
scheme separator the whole reference up to `?` / `#` is the path.  (The
rarely used `;params` component is not modelled.) -/
def afterFirstSub (pat : List Char) : List Char → Option (List Char)
  | [] => none
  | c :: rest =>
    if pat.isPrefixOf (c :: rest) then some (List.drop pat.length (c :: rest))
    else afterFirstSub pat rest

/-- `urllib.parse.urlparse(url).path`; see `afterFirstSub`. -/
def urlPath (url : String) : String :=
  match afterFirstSub "://".toList url.toList with
  | some rest =>
    let afterHost := rest.dropWhile (fun c => c != '/' && c != '?' && c != '#')
    ⟨afterHost.takeWhile (fun c => c != '?' && c != '#')⟩
  | none =>
    ⟨url.toList.takeWhile (fun c => c != '?' && c != '#')⟩

/-- The dynamic-content markers of openlist.py line 672. -/
def dynMarkers : List String := ["?", "&", ".php", ".asp", ".jsp", ".cgi"]

/-- The static-document markers of openlist.py line 673. -/
def staticMarkers : List String := [".pdf", ".doc", ".txt", ".zip"]

/-- Crawler configuration (constructor arguments of `OpenListDownloader`). -/
structure Config where
  base_url : String
  max_depth : Nat
  allowed_extensions : List String
deriving DecidableEq

/-- The mutable state `crawl_directory` touches: `visited_urls`, the
statistics counters it updates, and the download queue.  `fetches` is a
ghost counter of `session.get` calls issued by `crawl_directory`. -/
structure CrawlState where
  visited : List String
  fetches : Nat
  urls_discovered : Nat
  total_files_found : Nat
  errors : Nat
  queue : List Item
deriving DecidableEq

/-- The file branch of the per-item loop of `crawl_directory`
(openlist.py lines 665-677): a file is enqueued only when
`is_safe_path(item['href'])` holds and the dynamic-content heuristic on
`urlparse(item['url']).path.lower()` does not veto it. -/
def fileStep (cfg : Config) (st : CrawlState) (item : Item) : CrawlState :=
  if is_safe_path cfg.base_url cfg.allowed_extensions item.href then
    if (dynMarkers.any fun m => strContains (strLower (urlPath item.url)) m) &&
        !(staticMarkers.any fun m => strContains (strLower (urlPath item.url)) m) then
      st
    else
      { st with queue := st.queue ++ [item] }
  else st

/-- `OpenListDownloader.crawl_directory` (openlist.py lines 587-685).
`web` is the fetch-and-parse oracle: `none` models a fetch/parse
exception (the `except` branch), `some items` the result of
`parse_directory_listing` together with the extension-detection fallback
of lines 620-637.  `fuel` bounds the recursion; every guard behaviour
holds for all fuel, and calls with `fuel > max_depth - depth` never
exhaust it.  The `workers_active` flag is modelled as always set (the
producer runs to completion; cancellation is out of scope), and the
rate-limiting sleep has no state effect. -/
def crawl (cfg : Config) (web : String → Option (List Item)) :
    Nat → Nat → String → CrawlState → CrawlState
  | 0, _, _, st => st
  | fuel + 1, depth, url, st =>
    if depth > cfg.max_depth then st
    else if url ∈ st.visited then st
    else
      let st1 : CrawlState := { st with visited := url :: st.visited, fetches := st.fetches + 1 }
      match web url with
      | none => { st1 with errors := st1.errors + 1 }
      | some items =>
        if items = [] then st1
        else
          let st2 : CrawlState :=
            { st1 with
              urls_discovered := st1.urls_discovered + items.length
              total_files_found :=
                st1.total_files_found + (items.filter (fun i => !i.is_directory)).length }
          items.foldl
            (fun s item =>
              if item.is_directory then crawl cfg web fuel (depth + 1) item.url s
              else fileStep cfg s item)
            st2

/-- A `DownloadRecord` of the spec: an entry of `downloaded_files`. -/
structure DownloadRecord where
  url : String
  local_path : String
  size : Nat
  timestamp : Nat
deriving DecidableEq

/-- A `FailureRecord` of the spec: an entry of `failed_downloads`. -/
structure FailureRecord where
  url : String
  error : String
  timestamp : Nat
deriving DecidableEq

/-- The mutable state `download_file` touches.  `disk` is the set of
local paths that exist on the destination filesystem; `fetch_calls` is a
ghost counter of network GETs issued by the download phase. -/
structure DlState where
  disk : List String
  files_downloaded : Nat
  bytes_downloaded : Nat
  errors : Nat
  downloaded_files : List DownloadRecord
  failed_downloads : List FailureRecord
  fetch_calls : Nat
deriving DecidableEq

/-- `OpenListDownloader.download_file` (openlist.py lines 459-522).
`fetch` is the HTTP oracle: `.ok size` is a successful streamed download
of `size` bytes, `.error e` any fetch or disk-write exception with detail
`e` (the fetch and the chunked write are modelled as one atomic step).
`now` stands for `datetime.now().isoformat()`. -/
def download_file (fetch : String → Except String Nat) (now : Nat)
    (url local_path : String) (st : DlState) : Bool × DlState :=
  if local_path ∈ st.disk then
    (true, { st with files_downloaded := st.files_downloaded + 1 })
  else
    match fetch url with
    | .ok size =>
      (true,
        { st with
          disk := local_path :: st.disk
          files_downloaded := st.files_downloaded + 1
          bytes_downloaded := st.bytes_downloaded + size
          downloaded_files := st.downloaded_files ++ [⟨url, local_path, size, now⟩]
          fetch_calls := st.fetch_calls + 1 })
    | .error e =>
      (false,
        { st with
          errors := st.errors + 1
          failed_downloads := st.failed_downloads ++ [⟨url, e, now⟩]
          fetch_calls := st.fetch_calls + 1 })

/-- The worker pool draining a queue snapshot (`worker_thread`,
openlist.py lines 687-706): each entry `(url, local_path)` is handed to
`download_file`; the loop continues to the next item regardless of the
outcome of the previous one. -/
def worker_run (fetch : String → Except String Nat) (now : Nat) :
    List (String × String) → DlState → DlState
  | [], st => st
  | e :: es, st => worker_run fetch now es (download_file fetch now e.1 e.2 st).2

/-- The claim-C3 reading of the Safety Filter rules, written from the
claim's words for comparison with `is_safe_path`: rule 2 never rejects a
root-relative href, because such an href resolves to the crawl's own
host ("a same-host absolute path passes this rule"). -/
def is_safe_claim (allowed_extensions : List String) (path : String) : Bool :=
  if strContains path ".." then false
  else if !allowed_extensions.isEmpty then
    allowed_extensions.contains (pyExtLower path)
  else
    true

/-- An all-zero crawl state (run start). -/
def initCrawl : CrawlState := ⟨[], 0, 0, 0, 0, []⟩

/-- An all-zero download state (run start, empty output directory). -/
def initDl : DlState := ⟨[], 0, 0, 0, [], [], 0⟩

/-- A crawl state whose visited set already holds the root URL. -/
def visitedRootSt : CrawlState := ⟨["http://example.com"], 0, 0, 0, 0, []⟩

/-- A one-level config over example.com with no extension filtering. -/
def exCfg : Config := ⟨"http://example.com", 1, []⟩

/-- A web oracle on which every page parses to an empty listing. -/
def emptyWeb : String → Option (List Item) := fun _ => some []

/- ---------------------------------------------------------------- -/
/- Helper lemmas                                                     -/
/- ---------------------------------------------------------------- -/

theorem foldl_preserve {α β : Type} (P : β → Prop) (f : β → α → β) :
    ∀ (l : List α) (b : β), (∀ b a, a ∈ l → P b → P (f b a)) → P b → P (l.foldl f b) := by
  intro l
  induction l with
  | nil => intro b _ hb; simpa using hb
  | cons a l ih =>
    intro b hstep hb
    simp only [List.foldl_cons]
    exact ih (f b a) (fun b' a' ha' hb' => hstep b' a' (List.mem_cons_of_mem a ha') hb')
      (hstep b a (List.mem_cons_self a l) hb)

theorem fileStep_visited (cfg : Config) (st : CrawlState) (item : Item) :
    (fileStep cfg st item).visited = st.visited := by
  unfold fileStep
  split
  · split <;> rfl
  · rfl

theorem fileStep_queue_safe (cfg : Config) (st : CrawlState) (item : Item)
    (h : ∀ i ∈ st.queue, is_safe_path cfg.base_url cfg.allowed_extensions i.href = true) :
    ∀ i ∈ (fileStep cfg st item).queue,
      is_safe_path cfg.base_url cfg.allowed_extensions i.href = true := by
  unfold fileStep
  split
  · next hsafe =>
    split
    · exact h
    · intro i hi
      rcases List.mem_append.mp hi with hi | hi
      · exact h i hi
      · rw [List.mem_singleton.mp hi]
        exact hsafe
  · exact h

theorem crawl_visited_mono (cfg : Config) (web : String → Option (List Item)) :
    ∀ (fuel depth : Nat) (url : String) (st : CrawlState) (x : String),
      x ∈ st.visited → x ∈ (crawl cfg web fuel depth url st).visited := by
  intro fuel
  induction fuel with
  | zero => intro depth url st x hx; simpa [crawl] using hx
  | succ f ih =>
    intro depth url st x hx
    simp only [crawl]
    split
    · exact hx
    · split
      · exact hx
      · split
        · exact List.mem_cons_of_mem _ hx
        · split
          · exact List.mem_cons_of_mem _ hx
          · refine foldl_preserve (fun (s : CrawlState) => x ∈ s.visited) _ _ _ ?_ (List.mem_cons_of_mem _ hx)
            intro b a _ hb
            split
            · exact ih (depth + 1) a.url b x hb
            · rw [fileStep_visited]; exact hb

theorem crawl_visited_nodup (cfg : Config) (web : String → Option (List Item)) :
    ∀ (fuel depth : Nat) (url : String) (st : CrawlState),
      st.visited.Nodup → (crawl cfg web fuel depth url st).visited.Nodup := by
  intro fuel
  induction fuel with
  | zero => intro depth url st h; simpa [crawl] using h
  | succ f ih =>
    intro depth url st h
    simp only [crawl]
    split
    · exact h
    · split
      · exact h
      · next hmem =>
        have hnd : (url :: st.visited).Nodup := List.nodup_cons.mpr ⟨hmem, h⟩
        split
        · exact hnd
        · split
          · exact hnd
          · refine foldl_preserve (fun (s : CrawlState) => s.visited.Nodup) _ _ _ ?_ hnd
            intro b a _ hb
            split
            · exact ih (depth + 1) a.url b hb
            · rw [fileStep_visited]; exact hb

theorem crawl_inserts (cfg : Config) (web : String → Option (List Item))
    (fuel depth : Nat) (url : String) (st : CrawlState)
    (hd : depth ≤ cfg.max_depth) (hv : url ∉ st.visited) :
    url ∈ (crawl cfg web (fuel + 1) depth url st).visited := by
  simp only [crawl]
  rw [if_neg (Nat.not_lt.mpr hd), if_neg hv]
  split
  · exact List.mem_cons_self url st.visited
  · split
    · exact List.mem_cons_self url st.visited
    · refine foldl_preserve (fun (s : CrawlState) => url ∈ s.visited) _ _ _ ?_
        (List.mem_cons_self url st.visited)
      intro b a _ hb
      split
      · exact crawl_visited_mono cfg web fuel (depth + 1) a.url b url hb
      · rw [fileStep_visited]; exact hb

theorem crawl_queue_safe (cfg : Config) (web : String → Option (List Item)) :
    ∀ (fuel depth : Nat) (url : String) (st : CrawlState),
      (∀ i ∈ st.queue, is_safe_path cfg.base_url cfg.allowed_extensions i.href = true) →
      ∀ i ∈ (crawl cfg web fuel depth url st).queue,
        is_safe_path cfg.base_url cfg.allowed_extensions i.href = true := by
  intro fuel
  induction fuel with
  | zero => intro depth url st h; simpa [crawl] using h
  | succ f ih =>
    intro depth url st h
    simp only [crawl]
    split
    · exact h
    · split
      · exact h
      · split
        · exact h
        · split
          · exact h
          · refine foldl_preserve
              (fun (s : CrawlState) => ∀ i ∈ s.queue,
                is_safe_path cfg.base_url cfg.allowed_extensions i.href = true) _ _ _ ?_ h
            intro b a _ hb
            split
            · exact ih (depth + 1) a.url b hb
            · exact fileStep_queue_safe cfg b a hb

/- ---------------------------------------------------------------- -/
/- Claim theorems                                                    -/
/- ---------------------------------------------------------------- -/

/-- C1: a call of `crawl_directory` on a URL already in the visited set
returns immediately, with no fetch, no enqueue and no state change; and
since insertion is guarded by that membership check, the visited set
never holds a URL twice over a whole run, even when the URL is reachable
from two different parent pages. -/
theorem c1_visited_idempotent_and_at_most_once (cfg : Config)
    (web : String → Option (List Item)) (fuel depth : Nat) (url : String) (st : CrawlState) :
    (url ∈ st.visited → crawl cfg web fuel depth url st = st) ∧
    (st.visited.Nodup → (crawl cfg web fuel depth url st).visited.Nodup) := by
  constructor
  · intro h
    cases fuel with
    | zero => rfl
    | succ f =>
      simp only [crawl]
      split
      · rfl
      · rfl
  · exact crawl_visited_nodup cfg web fuel depth url st

theorem c1_witness :
    ("http://example.com" ∈ visitedRootSt.visited ∧
      crawl exCfg emptyWeb 2 0 "http://example.com" visitedRootSt = visitedRootSt) ∧
    (visitedRootSt.visited.Nodup ∧
      (crawl exCfg emptyWeb 2 0 "http://example.com" visitedRootSt).visited.Nodup) :=
  ⟨⟨by decide,
    (c1_visited_idempotent_and_at_most_once exCfg emptyWeb 2 0 "http://example.com"
      visitedRootSt).1 (by decide)⟩,
   ⟨by decide,
    (c1_visited_idempotent_and_at_most_once exCfg emptyWeb 2 0 "http://example.com"
      visitedRootSt).2 (by decide)⟩⟩

/-- C2: a call of `crawl_directory` with `current_depth > max_depth`
returns immediately — no error counted, no fetch, no visited-set
insertion, no state change at all — while a directory at depth exactly
`max_depth` (root being depth 0, each recursion adding one) is still
crawled: its URL enters the visited set. -/
theorem c2_depth_guard_boundary (cfg : Config) (web : String → Option (List Item))
    (fuel depth : Nat) (url : String) (st : CrawlState) :
    (depth > cfg.max_depth → crawl cfg web fuel depth url st = st) ∧
    (depth ≤ cfg.max_depth → url ∉ st.visited →
      url ∈ (crawl cfg web (fuel + 1) depth url st).visited) := by
  constructor
  · intro h
    cases fuel with
    | zero => rfl
    | succ f =>
      simp only [crawl]
      rw [if_pos h]
  · exact crawl_inserts cfg web fuel depth url st

theorem c2_witness :
    crawl exCfg emptyWeb 4 2 "http://example.com/deep/" initCrawl = initCrawl ∧
    "http://example.com/at-max/" ∈
      (crawl exCfg emptyWeb (3 + 1) 1 "http://example.com/at-max/" initCrawl).visited :=
  ⟨(c2_depth_guard_boundary exCfg emptyWeb 4 2 "http://example.com/deep/" initCrawl).1
      (by decide),
   (c2_depth_guard_boundary exCfg emptyWeb 3 1 "http://example.com/at-max/" initCrawl).2
      (by decide) (by decide)⟩

theorem starts_http_not_slash (base path : String)
    (hb : strStarts base "http" = true) (hp : strStarts path "/" = true) :
    strStarts path base = false := by
  unfold strStarts at hb hp ⊢
  rw [show ("http".toList) = ['h', 't', 't', 'p'] from rfl] at hb
  rw [show ("/".toList) = ['/'] from rfl] at hp
  cases hbl : base.toList with
  | nil => rw [hbl] at hb; simp [List.isPrefixOf] at hb
  | cons b bs =>
    cases hpl : path.toList with
    | nil => rw [hpl] at hp; simp [List.isPrefixOf] at hp
    | cons p ps =>
      rw [hbl] at hb
      rw [hpl] at hp
      simp only [List.isPrefixOf, Bool.and_eq_true, beq_iff_eq] at hb hp
      rw [← hb.1, ← hp.1]
      simp [List.isPrefixOf]

/-- C3, counterexample: the claim lets a same-host root-relative href
(`"/files/a.txt"` under base `http://example.com`) through rule 2, but
the code compares the href against the full base-URL string, which
starts with a scheme, so every href starting with `'/'` is rejected. -/
theorem c3_counterexample :
    is_safe_claim [] "/files/a.txt" = true ∧
    is_safe_path "http://example.com" [] "/files/a.txt" = false := by
  decide

/-- C3 (amended): `is_safe_path` returns false if the href contains
`..`; it returns false for every href starting with `'/'` whenever the
base URL starts with `"http"` (so same-host absolute paths are rejected
too, contrary to the claim); when a nonempty extension allow-list is
configured, the result is membership of the lower-cased suffix after the
last dot of the final path component; otherwise it returns true. -/
theorem c3_safe_path_rules (base_url : String) (allowed : List String) (path : String) :
    (strContains path ".." = true → is_safe_path base_url allowed path = false) ∧
    (strStarts base_url "http" = true → strStarts path "/" = true →
      is_safe_path base_url allowed path = false) ∧
    (strContains path ".." = false → strStarts path "/" = false → allowed = [] →
      is_safe_path base_url allowed path = true) ∧
    (strContains path ".." = false → strStarts path "/" = false → allowed ≠ [] →
      is_safe_path base_url allowed path = allowed.contains (pyExtLower path)) := by
  refine ⟨?_, ?_, ?_, ?_⟩
  · intro h
    simp [is_safe_path, h]
  · intro hb hp
    have hns := starts_http_not_slash base_url path hb hp
    simp [is_safe_path, hp, hns]
  · intro h1 h2 h3
    subst h3
    simp [is_safe_path, h1, h2]
  · intro h1 h2 h3
    have hne : allowed.isEmpty = false := by
      cases allowed with
      | nil => exact absurd rfl h3
      | cons a l => rfl
    simp [is_safe_path, h1, h2, hne]

theorem c3_safe_path_rules_witness :
    is_safe_path "http://example.com" ["pdf"] "a/../b" = false ∧
    is_safe_path "http://example.com" [] "/files/b.txt" = false ∧
    is_safe_path "http://example.com" [] "files/a.txt" = true ∧
    is_safe_path "http://example.com" ["pdf", "txt"] "files/a.txt" =
      (["pdf", "txt"] : List String).contains (pyExtLower "files/a.txt") :=
  ⟨(c3_safe_path_rules "http://example.com" ["pdf"] "a/../b").1 (by decide),
   (c3_safe_path_rules "http://example.com" [] "/files/b.txt").2.1 (by decide) (by decide),
   (c3_safe_path_rules "http://example.com" [] "files/a.txt").2.2.1 (by decide) (by decide) rfl,
   (c3_safe_path_rules "http://example.com" ["pdf", "txt"] "files/a.txt").2.2.2
     (by decide) (by decide) (by decide)⟩

/-- A directory item whose href fails the Safety Filter (it contains a
parent-path segment). -/
def c4BadDir : Item := ⟨"http://example.com/sub/../x/", "x", true, "sub/../x/"⟩

/-- A web oracle whose root listing holds only the unsafe directory. -/
def c4Web : String → Option (List Item) :=
  fun u => if u = "http://example.com" then some [c4BadDir] else some []

/-- C4, counterexample: the per-item loop of `crawl_directory` recurses
into a directory entry without consulting `is_safe_path` at all; a
directory whose href contains `..` — which the Safety Filter rejects —
is still crawled (its URL enters the visited set). -/
theorem c4_counterexample :
    is_safe_path exCfg.base_url exCfg.allowed_extensions c4BadDir.href = false ∧
    c4BadDir.url ∈ (crawl exCfg c4Web 3 0 "http://example.com" initCrawl).visited := by
  decide

/-- C4 (amended): only file entries are checked by the Safety Filter
before the Crawl Engine acts on them — a file entry is enqueued only if
`is_safe_path` accepts its href, and an unsafe file is never enqueued;
directory entries are recursed into without any Safety Filter check. -/
theorem c4_queue_only_safe (cfg : Config) (web : String → Option (List Item))
    (fuel depth : Nat) (url : String) (st : CrawlState)
    (h : ∀ i ∈ st.queue, is_safe_path cfg.base_url cfg.allowed_extensions i.href = true) :
    ∀ i ∈ (crawl cfg web fuel depth url st).queue,
      is_safe_path cfg.base_url cfg.allowed_extensions i.href = true :=
  crawl_queue_safe cfg web fuel depth url st h

/-- A safe file item used to exercise the enqueue path. -/
def c4File : Item := ⟨"http://example.com/a.txt", "a.txt", false, "a.txt"⟩

/-- A web oracle whose root listing holds only the safe file. -/
def c4FileWeb : String → Option (List Item) :=
  fun u => if u = "http://example.com" then some [c4File] else some []

theorem c4_queue_only_safe_witness :
    is_safe_path exCfg.base_url exCfg.allowed_extensions c4File.href = true :=
  c4_queue_only_safe exCfg c4FileWeb 2 0 "http://example.com" initCrawl
    (fun i hi => absurd hi (List.not_mem_nil i)) c4File (by decide)

/-- The tag set named by the claim. -/
def claimedTags : List String := ["apache", "nginx", "iis", "python-simple-server", "unknown"]

/-- The tag set the code can actually emit. -/
def codeTags : List String := ["apache", "nginx", "iis", "lighttpd", "python", "unknown"]

theorem mem_dedupAux : ∀ (l seen : List String) (t : String), t ∈ dedupAux l seen → t ∈ l := by
  intro l
  induction l with
  | nil => intro seen t ht; simp [dedupAux] at ht
  | cons a l ih =>
    intro seen t ht
    simp only [dedupAux] at ht
    split at ht
    · exact List.mem_cons_of_mem a (ih seen t ht)
    · rcases List.mem_cons.mp ht with h | h
      · exact h ▸ List.mem_cons_self a l
      · exact List.mem_cons_of_mem a (ih (a :: seen) t h)

theorem not_mem_dedupAux : ∀ (l seen : List String) (t : String), t ∈ seen → t ∉ dedupAux l seen := by
  intro l
  induction l with
  | nil => intro seen t ht h; simp [dedupAux] at h
  | cons a l ih =>
    intro seen t ht h
    simp only [dedupAux] at h
    split at h
    · exact ih seen t ht h
    · next hna =>
      rcases List.mem_cons.mp h with h1 | h1
      · exact hna (h1 ▸ ht)
      · exact ih (a :: seen) t (List.mem_cons_of_mem a ht) h1

theorem nodup_dedupAux : ∀ (l seen : List String), (dedupAux l seen).Nodup := by
  intro l
  induction l with
  | nil => intro seen; simp [dedupAux]
  | cons a l ih =>
    intro seen
    simp only [dedupAux]
    split
    · exact ih seen
    · exact List.nodup_cons.mpr
        ⟨not_mem_dedupAux l (a :: seen) a (List.mem_cons_self a seen), ih (a :: seen)⟩

theorem headerTags_sub (sh : String) : ∀ t ∈ headerTags sh, t ∈ codeTags := by
  intro t ht
  simp only [headerTags] at ht
  split at ht
  · rw [List.mem_singleton.mp ht]; decide
  · split at ht
    · rw [List.mem_singleton.mp ht]; decide
    · split at ht
      · rw [List.mem_singleton.mp ht]; decide
      · split at ht
        · rw [List.mem_singleton.mp ht]; decide
        · split at ht
          · rw [List.mem_singleton.mp ht]; decide
          · simp at ht

theorem contentTags_sub (c : String) : ∀ t ∈ contentTags c, t ∈ codeTags := by
  intro t ht
  simp only [contentTags] at ht
  split at ht
  · rw [List.mem_singleton.mp ht]; decide
  · split at ht
    · rw [List.mem_singleton.mp ht]; decide
    · split at ht
      · rw [List.mem_singleton.mp ht]; decide
      · split at ht
        · rw [List.mem_singleton.mp ht]; decide
        · split at ht
          · rw [List.mem_singleton.mp ht]; decide
          · simp at ht

/-- C5, counterexample: a `Server` header naming lighttpd makes
`detect_server_type` return the tag `lighttpd`, which is outside the
claim's fixed set {apache, nginx, iis, python-simple-server, unknown}. -/
theorem c5_counterexample :
    detect_server_type "lighttpd/1.4" "" = ["lighttpd"] ∧
    "lighttpd" ∉ claimedTags := by
  decide

/-- C5 (amended): given identical header and content the detection (a
pure function here) yields tags drawn from the code's fixed set
{apache, nginx, iis, lighttpd, python, unknown}, never an empty result,
with duplicates removed; the header `elif` chain is checked first in
order apache, nginx, iis, lighttpd, python, then the content chain, and
the final `list(set(...))` leaves the emitted order unspecified rather
than in the claimed priority order. -/
theorem c5_detect_tags (server_header content : String) :
    (∀ t ∈ detect_server_type server_header content, t ∈ codeTags) ∧
    detect_server_type server_header content ≠ [] ∧
    (detect_server_type server_header content).Nodup := by
  refine ⟨?_, ?_, ?_⟩
  · intro t ht
    simp only [detect_server_type] at ht
    split at ht
    · rw [List.mem_singleton.mp ht]; decide
    · have hm := mem_dedupAux _ [] t ht
      rcases List.mem_append.mp hm with h | h
      · exact headerTags_sub _ t h
      · exact contentTags_sub _ t h
  · simp only [detect_server_type]
    split
    · simp
    · next hne =>
      cases htl : headerTags (strLower server_header) ++ contentTags (strLower content) with
      | nil => exact absurd htl hne
      | cons a l =>
        simp [dedupFirst, dedupAux]
  · simp only [detect_server_type]
    split
    · simp
    · exact nodup_dedupAux _ []

theorem c5_detect_tags_witness :
    "apache" ∈ codeTags ∧
    detect_server_type "Apache/2.4" "" ≠ [] ∧
    (detect_server_type "Apache/2.4" "").Nodup :=
  ⟨(c5_detect_tags "Apache/2.4" "").1 "apache" (by decide),
   (c5_detect_tags "Apache/2.4" "").2.1,
   (c5_detect_tags "Apache/2.4" "").2.2⟩

theorem afterLastSlash_of_endsSlash (s : String) (h : endsSlash s = true) :
    afterLastSlash s.toList = [] := by
  unfold afterLastSlash
  cases hr : s.toList.reverse with
  | nil => simp [hr]
  | cons c cs =>
    have hc : c = '/' := by
      unfold endsSlash at h
      rw [hr] at h
      simpa using h
    rw [hc]
    simp [List.takeWhile]

/-- C6, counterexample: `_create_item` marks an entry as a directory
when the display name ends in a slash even though the raw href does not,
so `is_directory` is not equivalent to "the raw href ends in a path
separator". -/
theorem c6_counterexample :
    (create_item (fun s => s) (fun _ h => h) "http://example.com/" "sub" "sub/").is_directory
        = true ∧
    endsSlash
        (create_item (fun s => s) (fun _ h => h) "http://example.com/" "sub" "sub/").href
      = false := by
  decide

/-- C6 (amended): the Entry's `is_directory` field is true iff the
(entity-decoded) href ends in a path separator or the display name ends
in a path separator — the source's extra "no dot in the last name
component" guard is vacuously true whenever the name ends in a slash,
because the component after the final slash is then empty. -/
theorem c6_is_directory_formula (unescape : String → String)
    (urljoin : String → String → String) (base_url href name : String) :
    (create_item unescape urljoin base_url href name).is_directory =
      (endsSlash (unescape href) || endsSlash name) := by
  simp only [create_item]
  cases hn : endsSlash name with
  | false => simp
  | true =>
    rw [afterLastSlash_of_endsSlash name hn]
    simp

/-- A file item whose resolved path carries a dynamic-script suffix and
no static-document extension. -/
def c7Dyn : Item := ⟨"http://example.com/run.php", "run.php", false, "run.php"⟩

/-- A file item whose resolved path carries both a dynamic-script suffix
and a static-document extension. -/
def c7DynStatic : Item :=
  ⟨"http://example.com/report.php.pdf", "report.php.pdf", false, "report.php.pdf"⟩

/-- C7: a file entry that passed `is_safe_path` but whose resolved URL
path contains a dynamic-script marker (`.php`, `.asp`, `.jsp`, `.cgi`,
`?`, `&`) is excluded from the download queue — the state is left
unchanged — unless the path also contains one of the static-document
extensions `.pdf`, `.doc`, `.txt`, `.zip`, in which case it is
enqueued. -/
theorem c7_dynamic_content_filter (cfg : Config) (st : CrawlState) (item : Item)
    (hsafe : is_safe_path cfg.base_url cfg.allowed_extensions item.href = true)
    (hdyn : (dynMarkers.any fun m => strContains (strLower (urlPath item.url)) m) = true) :
    ((staticMarkers.any fun m => strContains (strLower (urlPath item.url)) m) = false →
      fileStep cfg st item = st) ∧
    ((staticMarkers.any fun m => strContains (strLower (urlPath item.url)) m) = true →
      fileStep cfg st item = { st with queue := st.queue ++ [item] }) := by
  constructor
  · intro hstat
    simp [fileStep, hsafe, hdyn, hstat]
  · intro hstat
    simp [fileStep, hsafe, hdyn, hstat]

theorem c7_dynamic_content_filter_witness :
    fileStep exCfg initCrawl c7Dyn = initCrawl ∧
    fileStep exCfg initCrawl c7DynStatic =
      { initCrawl with queue := initCrawl.queue ++ [c7DynStatic] } :=
  ⟨(c7_dynamic_content_filter exCfg initCrawl c7Dyn (by decide) (by decide)).1 (by decide),
   (c7_dynamic_content_filter exCfg initCrawl c7DynStatic (by decide) (by decide)).2
     (by decide)⟩

theorem download_disk_mono (fetch : String → Except String Nat) (now : Nat)
    (url lp p : String) (st : DlState) (h : p ∈ st.disk) :
    p ∈ (download_file fetch now url lp st).2.disk := by
  unfold download_file
  split
  · exact h
  · split
    · exact List.mem_cons_of_mem _ h
    · exact h

theorem run_disk_mono (fetch : String → Except String Nat) (now : Nat) :
    ∀ (entries : List (String × String)) (st : DlState) (p : String),
      p ∈ st.disk → p ∈ (worker_run fetch now entries st).disk := by
  intro entries
  induction entries with
  | nil => intro st p h; exact h
  | cons a l ih =>
    intro st p h
    simp only [worker_run]
    exact ih _ p (download_disk_mono fetch now a.1 a.2 p st h)

theorem run_all_on_disk (fetch : String → Except String Nat) (now : Nat) :
    ∀ (entries : List (String × String)) (st : DlState),
      (∀ e ∈ entries, ∃ n, fetch e.1 = Except.ok n) →
      ∀ e ∈ entries, e.2 ∈ (worker_run fetch now entries st).disk := by
  intro entries
  induction entries with
  | nil => intro st _ e he; simp at he
  | cons a l ih =>
    intro st h e he
    simp only [worker_run]
    rcases List.mem_cons.mp he with he | he
    · subst he
      apply run_disk_mono
      unfold download_file
      split
      · next hmem => exact hmem
      · obtain ⟨n, hn⟩ := h e (List.mem_cons_self e l)
        rw [hn]
        exact List.mem_cons_self _ _
    · exact ih _ (fun e' he' => h e' (List.mem_cons_of_mem a he')) e he

theorem run_no_fetch_on_disk (fetch : String → Except String Nat) (now : Nat) :
    ∀ (entries : List (String × String)) (st : DlState),
      (∀ e ∈ entries, e.2 ∈ st.disk) →
      (worker_run fetch now entries st).fetch_calls = st.fetch_calls := by
  intro entries
  induction entries with
  | nil => intro st _; rfl
  | cons a l ih =>
    intro st h
    have ha : a.2 ∈ st.disk := h a (List.mem_cons_self a l)
    have hstep : download_file fetch now a.1 a.2 st =
        (true, { st with files_downloaded := st.files_downloaded + 1 }) := by
      unfold download_file
      rw [if_pos ha]
    simp only [worker_run, hstep]
    exact ih { st with files_downloaded := st.files_downloaded + 1 }
      (fun e he => h e (List.mem_cons_of_mem a he))

/-- C8: when the computed local destination path already exists on disk,
`download_file` performs no network fetch (the ghost `fetch_calls`
counter and every other field except `files_downloaded` are untouched),
increments `files_downloaded`, and returns success; consequently, after
a download pass in which every fetch succeeded, a second pass over the
same entries against the same output directory performs zero network
fetches. -/
theorem c8_skip_idempotent (fetch : String → Except String Nat) (now : Nat)
    (url lp : String) (st : DlState) (entries : List (String × String)) (st0 : DlState) :
    (lp ∈ st.disk →
      download_file fetch now url lp st =
        (true, { st with files_downloaded := st.files_downloaded + 1 })) ∧
    ((∀ e ∈ entries, ∃ n, fetch e.1 = Except.ok n) →
      (worker_run fetch now entries (worker_run fetch now entries st0)).fetch_calls =
        (worker_run fetch now entries st0).fetch_calls) := by
  constructor
  · intro h
    unfold download_file
    rw [if_pos h]
  · intro hall
    exact run_no_fetch_on_disk fetch now entries _
      (run_all_on_disk fetch now entries st0 hall)

/-- An HTTP oracle on which every fetch succeeds with a 4-byte body. -/
def okFetch : String → Except String Nat := fun _ => Except.ok 4

/-- An HTTP oracle on which every fetch raises a timeout error. -/
def failFetch : String → Except String Nat := fun _ => Except.error "timeout"

/-- A download state whose output directory already holds path `p`. -/
def diskSt : DlState := ⟨["p"], 0, 0, 0, [], [], 0⟩

/-- A single-entry queue snapshot. -/
def oneEntry : List (String × String) := [("http://example.com/a.txt", "a.txt")]

theorem c8_skip_idempotent_witness :
    download_file okFetch 0 "u" "p" diskSt =
      (true, { diskSt with files_downloaded := diskSt.files_downloaded + 1 }) ∧
    (worker_run okFetch 0 oneEntry (worker_run okFetch 0 oneEntry initDl)).fetch_calls =
      (worker_run okFetch 0 oneEntry initDl).fetch_calls :=
  ⟨(c8_skip_idempotent okFetch 0 "u" "p" diskSt oneEntry initDl).1 (by decide),
   (c8_skip_idempotent okFetch 0 "u" "p" diskSt oneEntry initDl).2
     (fun e _ => ⟨4, rfl⟩)⟩

/-- C9: when the fetch (or the modelled atomic fetch-and-write) of a
not-yet-present file raises an error, `download_file` appends exactly
one `FailureRecord` carrying the url, the error detail and the
timestamp, increments the errors counter, leaves `files_downloaded` and
`bytes_downloaded` unchanged, and returns failure; and the worker loop
continues with the remaining queue items — one failure never aborts the
run. -/
theorem c9_failure_record (fetch : String → Except String Nat) (now : Nat)
    (url lp errmsg : String) (st : DlState) (es : List (String × String))
    (hne : lp ∉ st.disk) (herr : fetch url = Except.error errmsg) :
    download_file fetch now url lp st =
      (false,
        { st with
          errors := st.errors + 1
          failed_downloads := st.failed_downloads ++ [⟨url, errmsg, now⟩]
          fetch_calls := st.fetch_calls + 1 }) ∧
    (download_file fetch now url lp st).2.files_downloaded = st.files_downloaded ∧
    (download_file fetch now url lp st).2.bytes_downloaded = st.bytes_downloaded ∧
    worker_run fetch now ((url, lp) :: es) st =
      worker_run fetch now es (download_file fetch now url lp st).2 := by
  have hstep : download_file fetch now url lp st =
      (false,
        { st with
          errors := st.errors + 1
          failed_downloads := st.failed_downloads ++ [⟨url, errmsg, now⟩]
          fetch_calls := st.fetch_calls + 1 }) := by
    unfold download_file
    rw [if_neg hne, herr]
  exact ⟨hstep, by rw [hstep], by rw [hstep], rfl⟩

theorem c9_failure_record_witness :
    download_file failFetch 7 "http://example.com/a.txt" "a.txt" initDl =
      (false,
        { initDl with
          errors := initDl.errors + 1
          failed_downloads :=
            initDl.failed_downloads ++ [⟨"http://example.com/a.txt", "timeout", 7⟩]
          fetch_calls := initDl.fetch_calls + 1 }) ∧
    (download_file failFetch 7 "http://example.com/a.txt" "a.txt" initDl).2.files_downloaded =
      initDl.files_downloaded ∧
    (download_file failFetch 7 "http://example.com/a.txt" "a.txt" initDl).2.bytes_downloaded =
      initDl.bytes_downloaded ∧
    worker_run failFetch 7 [("http://example.com/a.txt", "a.txt")] initDl =
      worker_run failFetch 7 []
        (download_file failFetch 7 "http://example.com/a.txt" "a.txt" initDl).2 :=
  c9_failure_record failFetch 7 "http://example.com/a.txt" "a.txt" "timeout" initDl []
    (by decide) rfl

theorem dl_step_undercount (fetch : String → Except String Nat) (now : Nat)
    (url lp : String) (st : DlState)
    (h : st.downloaded_files.length ≤ st.files_downloaded) :
    (download_file fetch now url lp st).2.downloaded_files.length ≤
      (download_file fetch now url lp st).2.files_downloaded := by
  unfold download_file
  split
  · exact Nat.le_succ_of_le h
  · split
    · simp only [List.length_append, List.length_singleton]
      omega
    · exact h

theorem run_undercount (fetch : String → Except String Nat) (now : Nat) :
    ∀ (entries : List (String × String)) (st : DlState),
      st.downloaded_files.length ≤ st.files_downloaded →
      (worker_run fetch now entries st).downloaded_files.length ≤
        (worker_run fetch now entries st).files_downloaded := by
  intro entries
  induction entries with
  | nil => intro st h; exact h
  | cons a l ih =>
    intro st h
    simp only [worker_run]
    exact ih _ (dl_step_undercount fetch now a.1 a.2 st h)

/-- C10: the skip branch bumps `files_downloaded` without appending a
`DownloadRecord`, so throughout a run the `downloaded_files` log is at
most as long as the `files_downloaded` counter, and strictly shorter
right after any skip — the persisted `downloaded_files` array can
undercount `files_downloaded`. -/
theorem c10_records_undercount (fetch : String → Except String Nat) (now : Nat)
    (entries : List (String × String)) (st : DlState) (url lp : String) :
    (st.downloaded_files.length ≤ st.files_downloaded →
      (worker_run fetch now entries st).downloaded_files.length ≤
        (worker_run fetch now entries st).files_downloaded) ∧
    (lp ∈ st.disk → st.downloaded_files.length ≤ st.files_downloaded →
      (download_file fetch now url lp st).2.downloaded_files.length <
        (download_file fetch now url lp st).2.files_downloaded) := by
  constructor
  · exact run_undercount fetch now entries st
  · intro hd h
    unfold download_file
    rw [if_pos hd]
    exact Nat.lt_succ_of_le h

theorem c10_records_undercount_witness :
    (worker_run okFetch 0 oneEntry initDl).downloaded_files.length ≤
      (worker_run okFetch 0 oneEntry initDl).files_downloaded ∧
    (download_file okFetch 0 "u" "p" diskSt).2.downloaded_files.length <
      (download_file okFetch 0 "u" "p" diskSt).2.files_downloaded :=
  ⟨(c10_records_undercount okFetch 0 oneEntry initDl "u" "p").1 (by decide),
   (c10_records_undercount okFetch 0 oneEntry diskSt "u" "p").2 (by decide) (by decide)⟩

end OpenList
